import Mathlib

/-!
Verification of the tablet replacement orchestration subsystem of
JeffreySmith/kudu against its natural-language specification.

The repository ships only the integration test
`src/kudu/integration-tests/replace_tablet-itest.cc`; the subsystem it
exercises (Tablet Metadata Store, Replacement Coordinator, Replica
Controller, Catalog Authority) is repository code that is not included
under `src/`, so those components are modelled from the specification,
each such definition carrying a `Modelled from the spec:` doc comment.
The helper routines of the test file itself (`RandomTabletId`,
`ReplaceRandomTablet`) are embedded directly from the source.
-/

namespace KuduReplace

/-- Modelled from the spec: lifecycle state of a tablet (spec section 3);
RUNNING and CREATING tablets are the live cover, REPLACED tablets have been
superseded by a replacement and await teardown. -/
inductive TabletState
  | RUNNING
  | CREATING
  | REPLACED
deriving DecidableEq

/-- Modelled from the spec: lifecycle state of one replica of a tablet on a
storage node (spec section 3). -/
inductive ReplicaState
  | BOOTSTRAPPING
  | RUNNING
  | TOMBSTONED
  | DELETED
deriving DecidableEq

/-- Modelled from the spec: a Tablet record of the Tablet Metadata Store:
opaque ID, owning table, key-range bounds `[lo, hi)`, lifecycle state and the
replacement lineage pointer (the predecessor tablet it superseded, if any).
Keys and IDs are opaque and modelled as naturals. -/
structure Tablet where
  id : Nat
  tableId : Nat
  lo : Nat
  hi : Nat
  state : TabletState
  lineage : Option Nat
deriving DecidableEq

/-- Modelled from the spec: one replica record: the tablet it belongs to, the
hosting node and its lifecycle state. -/
structure Replica where
  tabletId : Nat
  node : Nat
  state : ReplicaState
deriving DecidableEq

/-- Modelled from the spec: the Tablet Metadata Store, the durable record of
every tablet and replica (spec section 4.1). -/
structure MetaStore where
  tablets : List Tablet
  replicas : List Replica
deriving DecidableEq

/-- Modelled from the spec: `Get(tabletID) -> Tablet | NotFound`. -/
def get (s : MetaStore) (tid : Nat) : Option Tablet :=
  s.tablets.find? (fun t => t.id == tid)

/-- Modelled from the spec: whether a tablet state belongs to the live
partition cover ({RUNNING, CREATING}). -/
def isLive : TabletState → Bool
  | TabletState.RUNNING => true
  | TabletState.CREATING => true
  | TabletState.REPLACED => false

/-- Modelled from the spec: the live tablets of one table, in store order. -/
def liveOf (s : MetaStore) (table : Nat) : List Tablet :=
  s.tablets.filter (fun t => t.tableId == table && isLive t.state)

/-- Modelled from the spec: `ListByTable(tableID)`: the live tablets of the
table, ordered by key-range start (spec section 4.1). -/
def listByTable (s : MetaStore) (table : Nat) : List Tablet :=
  (liveOf s table).insertionSort (fun a b => a.lo ≤ b.lo)

/-- Whether key `k` falls inside tablet `t`'s key range `[lo, hi)`. -/
def containsKey (t : Tablet) (k : Nat) : Bool :=
  t.lo ≤ k && k < t.hi

/-- How many tablets of the list contain key `k`. -/
def coverCountL (ts : List Tablet) (k : Nat) : Nat :=
  ts.countP (fun t => containsKey t k)

/-- The list of tablets is a non-overlapping, gap-free cover of the key
space `[0, K)`: every key lies in exactly one tablet of the list. -/
def goodCover (K : Nat) (ts : List Tablet) : Prop :=
  ∀ k, k < K → coverCountL ts k = 1

/-- Well-formedness of the store: tablet IDs are unique. -/
def idsNodup (s : MetaStore) : Prop :=
  (s.tablets.map Tablet.id).Nodup

/-- Modelled from the spec: outcome of a replace-tablet request as reported
synchronously to the caller (spec sections 4.3 and 7). -/
inductive ReplaceResult
  | done
  | notFound
  | invalidState
  | alreadyReplaced
  | failed
deriving DecidableEq

/-- Modelled from the spec: the VALIDATING step of the Replacement
Coordinator: look up the target tablet; `NotFound` if absent,
`AlreadyReplaced` if already superseded, `InvalidState` if not RUNNING
(spec sections 4.3.1 and 9). -/
def validate (s : MetaStore) (tid : Nat) : Except ReplaceResult Tablet :=
  match get s tid with
  | none => Except.error ReplaceResult.notFound
  | some t =>
    if t.state = TabletState.REPLACED then Except.error ReplaceResult.alreadyReplaced
    else if t.state = TabletState.RUNNING then Except.ok t
    else Except.error ReplaceResult.invalidState

/-- Modelled from the spec: result of the delegated successor allocation of
step ALLOCATING_SUCCESSOR: either a fresh tablet identity whose replica set
reached quorum readiness, or a timeout / placement failure. -/
inductive AllocResult
  | ok (fresh : Nat)
  | timeout
  | placementFailure
deriving DecidableEq

/-- Modelled from the spec: the successor tablet synthesized over the
identical key range of the target, with a fresh identity and lineage
pointing at the target. It is held by the coordinator in CREATING state
while allocating and is spliced into the store as RUNNING by the swap CAS
(spec sections 4.3.2 and 4.3.3). -/
def successorOf (t : Tablet) (fresh : Nat) : Tablet :=
  { id := fresh, tableId := t.tableId, lo := t.lo, hi := t.hi,
    state := TabletState.RUNNING, lineage := some t.id }

/-- Modelled from the spec: the swap mutation of step SWAPPING_METADATA
applied to one tablet record: the target is marked REPLACED, every other
record is untouched. -/
def markIf (tid : Nat) (u : Tablet) : Tablet :=
  if u.id = tid then { u with state := TabletState.REPLACED } else u

/-- Modelled from the spec: `CompareAndSwap(tabletID, expected = RUNNING, …)`,
the only mutation primitive of the Tablet Metadata Store, instantiated with
the swap of step SWAPPING_METADATA: if the target is present and still
RUNNING, atomically mark it REPLACED and splice the successor (promoted to
RUNNING) into the table's cover; otherwise report Conflict (spec sections
4.1 and 4.3.3). -/
def swapCas (s : MetaStore) (tid : Nat) (captured : Tablet) (fresh : Nat) :
    Except Unit MetaStore :=
  match get s tid with
  | none => Except.error ()
  | some t =>
    if t.state = TabletState.RUNNING then
      Except.ok { s with tablets := s.tablets.map (markIf tid) ++ [successorOf captured fresh] }
    else Except.error ()

/-- Modelled from the spec: one replace-tablet operation of the Replacement
Coordinator run to completion against the store, with `alloc` the outcome of
the delegated successor allocation: VALIDATING, then ALLOCATING_SUCCESSOR
(timeout or placement failure ends in FAILED with no visible change), then
the SWAPPING_METADATA CAS (a conflict resolves to AlreadyReplaced), then
DONE; teardown of the old replicas is asynchronous and does not block DONE
(spec section 4.3). -/
def replaceTablet (s : MetaStore) (tid : Nat) (alloc : AllocResult) :
    MetaStore × ReplaceResult :=
  match validate s tid with
  | Except.error e => (s, e)
  | Except.ok t =>
    match alloc with
    | AllocResult.timeout => (s, ReplaceResult.failed)
    | AllocResult.placementFailure => (s, ReplaceResult.failed)
    | AllocResult.ok fresh =>
      match swapCas s tid t fresh with
      | Except.ok s2 => (s2, ReplaceResult.done)
      | Except.error _ => (s, ReplaceResult.alreadyReplaced)

/-- Modelled from the spec: result of a Replica Controller teardown call. -/
inductive TeardownResult
  | ok
  | notFound
  | nodeUnreachable
deriving DecidableEq

/-- Lookup of one replica record by tablet and node. -/
def findReplica (s : MetaStore) (tid node : Nat) : Option Replica :=
  s.replicas.find? (fun r => r.tabletId == tid && r.node == node)

/-- Modelled from the spec: `TombstoneReplica(tabletID, node) -> OK |
NodeUnreachable`: best-effort marking of a replica as TOMBSTONED; a replica
that is absent or already DELETED is left untouched (transient node
unreachability is retried out-of-band by the background reaper and is not
part of the metadata model). -/
def tombstoneReplica (s : MetaStore) (tid node : Nat) : MetaStore × TeardownResult :=
  match findReplica s tid node with
  | none => (s, TeardownResult.ok)
  | some r =>
    if r.state = ReplicaState.DELETED then (s, TeardownResult.ok)
    else
      ({ s with replicas := s.replicas.map (fun q =>
           if q.tabletId == tid && q.node == node then
             { q with state := ReplicaState.TOMBSTONED }
           else q) },
       TeardownResult.ok)

/-- Modelled from the spec: `DeleteTombstoned(tabletID, node) -> OK |
NotFound`: deletes a TOMBSTONED replica; a replica that is absent or not
TOMBSTONED (in particular one already DELETED) yields NotFound with no
state change. -/
def deleteTombstoned (s : MetaStore) (tid node : Nat) : MetaStore × TeardownResult :=
  match findReplica s tid node with
  | none => (s, TeardownResult.notFound)
  | some r =>
    if r.state = ReplicaState.TOMBSTONED then
      ({ s with replicas := s.replicas.map (fun q =>
           if q.tabletId == tid && q.node == node then
             { q with state := ReplicaState.DELETED }
           else q) },
       TeardownResult.ok)
    else (s, TeardownResult.notFound)

/-- Modelled from the spec: the data-plane view needed by section 5: the
metadata store plus the rows currently held by tablets, each row recorded as
(hosting tablet ID, row key). -/
structure Cluster where
  meta : MetaStore
  rows : List (Nat × Nat)
deriving DecidableEq

/-- Modelled from the spec: error classes a client write can receive; the
"stale partition" and "tablet not found" classes are retryable after a
partition-cache refresh (spec sections 5 and 6). -/
inductive WriteError
  | tabletNotFound
  | stalePartition
  | notServing
  | keyOutOfRange
deriving DecidableEq

/-- Whether a write error is of the retryable, cache-invalidating class. -/
def retryableWrite : WriteError → Bool
  | WriteError.tabletNotFound => true
  | WriteError.stalePartition => true
  | WriteError.notServing => true
  | WriteError.keyOutOfRange => false

/-- Modelled from the spec: a client write RPC directed at one tablet ID: a
write against a REPLACED tablet receives the distinguished stale-partition
error; a write against an absent tablet receives tablet-not-found; a write
against a CREATING tablet is not yet servable; an accepted write stores its
row in exactly the addressed RUNNING tablet, and only if the key belongs to
that tablet's range (spec sections 5 and 6). -/
def writeRow (c : Cluster) (tid k : Nat) : Cluster × Option WriteError :=
  match get c.meta tid with
  | none => (c, some WriteError.tabletNotFound)
  | some t =>
    match t.state with
    | TabletState.REPLACED => (c, some WriteError.stalePartition)
    | TabletState.CREATING => (c, some WriteError.notServing)
    | TabletState.RUNNING =>
      if containsKey t k then ({ c with rows := (tid, k) :: c.rows }, none)
      else (c, some WriteError.keyOutOfRange)

/-- Modelled from the spec: the replace-tablet operation lifted to the
data-plane view: it mutates only metadata; the successor starts empty. -/
def replaceCluster (c : Cluster) (tid : Nat) (alloc : AllocResult) :
    Cluster × ReplaceResult :=
  ((fun p => ({ meta := p.1, rows := c.rows }, p.2)) (replaceTablet c.meta tid alloc))

/-- Every stored row is attributed to the key range of the tablet that holds
it: the hosting tablet exists and its range contains the row's key. -/
def rowsAttributed (c : Cluster) : Prop :=
  ∀ p ∈ c.rows, ∃ t, get c.meta p.1 = some t ∧ containsKey t p.2 = true

/-! Embedding of the test-file helpers of
`src/kudu/integration-tests/replace_tablet-itest.cc`. -/

/-- Embedding of `ReplaceTabletITest::RandomTabletId`
(replace_tablet-itest.cc:63-73): with `tablets` the IDs listed by the tablet
server and `d` the drawn random number, returns NotFound (`none`) when the
server lists no tablets, and otherwise the tablet at index
`d % tablets.length` (the code draws `rand_.Uniform(tablets.size())`). -/
def randomTabletId (tablets : List String) (d : Nat) : Option String :=
  match tablets with
  | [] => none
  | t :: ts => some ((t :: ts).getD (d % (t :: ts).length) t)

/-- Embedding of the selection loop of `ReplaceTabletITest::ReplaceRandomTablet`
(replace_tablet-itest.cc:75-91): each iteration consumes one random draw;
a NotFound from `RandomTabletId` is propagated (`RETURN_NOT_OK`); a drawn ID
already contained in `replaced_tablet_ids` forces a retry; otherwise the
loop stops and the replace request is issued for the drawn ID.  `none` means
the supplied draws were exhausted with the loop still running. -/
def replaceLoop (tablets : List String) (replaced : List String) :
    List Nat → Option (Except Unit String)
  | [] => none
  | d :: ds =>
    match randomTabletId tablets d with
    | none => some (Except.error ())
    | some i => if i ∈ replaced then replaceLoop tablets replaced ds else some (Except.ok i)

/-! Concurrent execution model of the Catalog Authority handling several
replacement operations at once (spec section 5): each operation is an
independent task whose VALIDATING read and SWAPPING_METADATA CAS are
separate atomic steps against the shared Tablet Metadata Store, so steps of
different operations interleave arbitrarily. -/

/-- Modelled from the spec: the phase of one in-flight replacement operation:
not yet validated; validated with the captured target record, successor
(coordinator-owned, in CREATING state) being allocated; or terminal with its
reported outcome. -/
inductive OpPhase
  | validating
  | allocating (captured : Tablet)
  | terminal (r : ReplaceResult)
deriving DecidableEq

/-- Modelled from the spec: one in-flight replacement operation: the target
tablet ID of the request, the fresh identity chosen for the successor, and
the current phase. -/
structure Op where
  targetId : Nat
  freshId : Nat
  phase : OpPhase
deriving DecidableEq

/-- Modelled from the spec: the Catalog Authority's state: the shared
metadata store and the in-flight operations. -/
structure Sys where
  store : MetaStore
  ops : List Op
deriving DecidableEq

/-- True exactly on terminal phases. -/
def isTerminal : OpPhase → Bool
  | OpPhase.terminal _ => true
  | _ => false

/-- Number of operations that reached DONE. -/
def doneCount (ops : List Op) : Nat :=
  ops.countP (fun op => decide (op.phase = OpPhase.terminal ReplaceResult.done))

/-- Number of RUNNING successors of tablet `tid` present in the store. -/
def succCount (s : MetaStore) (tid : Nat) : Nat :=
  s.tablets.countP (fun u => decide (u.lineage = some tid ∧ u.state = TabletState.RUNNING))

/-- Modelled from the spec: one atomic step of the Catalog Authority: some
operation performs its VALIDATING read (succeeding, or terminating with the
validation error), suffers an allocation timeout or placement failure
(terminating FAILED with no visible change), or performs its
SWAPPING_METADATA CAS (installing the swap, or terminating AlreadyReplaced
on conflict). -/
inductive Step : Sys → Sys → Prop
  | validateOk (sys : Sys) (i : Nat) (op : Op) (t : Tablet)
      (hop : sys.ops[i]? = some op) (hph : op.phase = OpPhase.validating)
      (hv : validate sys.store op.targetId = Except.ok t) :
      Step sys ⟨sys.store, sys.ops.set i { op with phase := OpPhase.allocating t }⟩
  | validateErr (sys : Sys) (i : Nat) (op : Op) (e : ReplaceResult)
      (hop : sys.ops[i]? = some op) (hph : op.phase = OpPhase.validating)
      (hv : validate sys.store op.targetId = Except.error e) :
      Step sys ⟨sys.store, sys.ops.set i { op with phase := OpPhase.terminal e }⟩
  | allocFail (sys : Sys) (i : Nat) (op : Op) (t : Tablet)
      (hop : sys.ops[i]? = some op) (hph : op.phase = OpPhase.allocating t) :
      Step sys ⟨sys.store, sys.ops.set i { op with phase := OpPhase.terminal ReplaceResult.failed }⟩
  | casOk (sys : Sys) (i : Nat) (op : Op) (t : Tablet) (s2 : MetaStore)
      (hop : sys.ops[i]? = some op) (hph : op.phase = OpPhase.allocating t)
      (hc : swapCas sys.store op.targetId t op.freshId = Except.ok s2) :
      Step sys ⟨s2, sys.ops.set i { op with phase := OpPhase.terminal ReplaceResult.done }⟩
  | casConflict (sys : Sys) (i : Nat) (op : Op) (t : Tablet)
      (hop : sys.ops[i]? = some op) (hph : op.phase = OpPhase.allocating t)
      (hc : swapCas sys.store op.targetId t op.freshId = Except.error ()) :
      Step sys ⟨sys.store, sys.ops.set i { op with phase := OpPhase.terminal ReplaceResult.alreadyReplaced }⟩

/-- Reflexive-transitive closure of `Step`. -/
def Reachable : Sys → Sys → Prop :=
  Relation.ReflTransGen Step

/-- The system in which `fresh.length` duplicate replacement requests for
tablet `tid` have been admitted, none of them started, over store `s0`;
`fresh` lists the successor identity chosen by each operation. -/
def initSys (s0 : MetaStore) (tid : Nat) (fresh : List Nat) : Sys :=
  ⟨s0, fresh.map (fun f => { targetId := tid, freshId := f, phase := OpPhase.validating })⟩

/-- Admissibility of the initial configuration: the target exists and is
RUNNING; the chosen successor identities are pairwise distinct and unused;
the store holds no CREATING tablet and no RUNNING successor of the target
yet. -/
def InitOk (s0 : MetaStore) (tid : Nat) (fresh : List Nat) : Prop :=
  (∃ t0, get s0 tid = some t0 ∧ t0.state = TabletState.RUNNING) ∧
  fresh.Nodup ∧
  (∀ f ∈ fresh, f ∉ s0.tablets.map Tablet.id) ∧
  (∀ u ∈ s0.tablets, u.state ≠ TabletState.CREATING) ∧
  (∀ u ∈ s0.tablets, ¬(u.lineage = some tid ∧ u.state = TabletState.RUNNING))

/-- Inductive invariant of the concurrent system, for target `tid` and the
IDs `initIds` present in the store initially: operation bookkeeping is
stable, store IDs come from the initial store or from completed operations,
no CREATING tablet is ever stored, and the target is either still RUNNING
with nothing completed, or REPLACED with exactly one completed operation and
exactly one RUNNING successor. -/
structure Inv (tid : Nat) (initIds : List Nat) (sys : Sys) : Prop where
  targets : ∀ op ∈ sys.ops, op.targetId = tid
  freshNodup : (sys.ops.map Op.freshId).Nodup
  freshNew : ∀ op ∈ sys.ops, op.freshId ∉ initIds
  allocCaptured : ∀ op ∈ sys.ops, ∀ t, op.phase = OpPhase.allocating t → t.id = tid
  idsFrom : ∀ n ∈ sys.store.tablets.map Tablet.id,
    n ∈ initIds ∨ ∃ op ∈ sys.ops, op.phase = OpPhase.terminal ReplaceResult.done ∧ op.freshId = n
  noCreating : ∀ u ∈ sys.store.tablets, u.state ≠ TabletState.CREATING
  main :
    ((∃ t0, get sys.store tid = some t0 ∧ t0.state = TabletState.RUNNING) ∧
      doneCount sys.ops = 0 ∧ succCount sys.store tid = 0 ∧
      (∀ op ∈ sys.ops, ∀ r, op.phase = OpPhase.terminal r → r = ReplaceResult.failed)) ∨
    ((∃ t0, get sys.store tid = some t0 ∧ t0.state = TabletState.REPLACED) ∧
      doneCount sys.ops = 1 ∧ succCount sys.store tid = 1 ∧
      (∀ op ∈ sys.ops, ∀ r, op.phase = OpPhase.terminal r →
        r = ReplaceResult.done ∨ r = ReplaceResult.alreadyReplaced ∨ r = ReplaceResult.failed))

/-- The store produced by a successful swap CAS. -/
def swapStore (s : MetaStore) (tid : Nat) (captured : Tablet) (fresh : Nat) : MetaStore :=
  { s with tablets := s.tablets.map (markIf tid) ++ [successorOf captured fresh] }

/-- Whether tablet `t` is a live member of `table`'s cover containing key `k`. -/
def coverPred (table k : Nat) (t : Tablet) : Bool :=
  containsKey t k && (t.tableId == table && isLive t.state)

/-- Example store: table 0 covered by two RUNNING tablets over `[0, 2)` and
`[2, 4)`, with one already-deleted replica record. -/
def exS : MetaStore :=
  ⟨[⟨1, 0, 0, 2, TabletState.RUNNING, none⟩, ⟨2, 0, 2, 4, TabletState.RUNNING, none⟩],
   [⟨1, 0, ReplicaState.DELETED⟩]⟩

/-- Example store holding a single REPLACED tablet, the state reached after a
completed replacement of tablet 3. -/
def cexS : MetaStore :=
  ⟨[⟨3, 0, 0, 4, TabletState.REPLACED, none⟩], []⟩

/-- Example swapped store: `exS` after tablet 1 has been replaced by
successor 7. -/
def exSwapped : MetaStore :=
  ⟨[⟨1, 0, 0, 2, TabletState.REPLACED, none⟩, ⟨2, 0, 2, 4, TabletState.RUNNING, none⟩,
    ⟨7, 0, 0, 2, TabletState.RUNNING, some 1⟩],
   [⟨1, 0, ReplicaState.DELETED⟩]⟩

/-- Example terminal state of two racing duplicate requests on tablet 1 of
`exS`: the first won the CAS, the second aborted as AlreadyReplaced. -/
def exSysFinal : Sys :=
  ⟨exSwapped,
   [⟨1, 7, OpPhase.terminal ReplaceResult.done⟩,
    ⟨1, 8, OpPhase.terminal ReplaceResult.alreadyReplaced⟩]⟩

/-- Executable form of the attribution check `rowsAttributed`. -/
def rowsAttributedB (c : Cluster) : Bool :=
  c.rows.all (fun p =>
    match get c.meta p.1 with
    | none => false
    | some t => containsKey t p.2)

/-- Scenario store of C8: one table (ID 0) split into 4 tablets over the key
space `[0, 40)`, each replicated on the 3 nodes of the cluster. -/
def c8Meta : MetaStore :=
  ⟨[⟨1, 0, 0, 10, TabletState.RUNNING, none⟩, ⟨2, 0, 10, 20, TabletState.RUNNING, none⟩,
    ⟨3, 0, 20, 30, TabletState.RUNNING, none⟩, ⟨4, 0, 30, 40, TabletState.RUNNING, none⟩],
   [⟨1, 0, ReplicaState.RUNNING⟩, ⟨1, 1, ReplicaState.RUNNING⟩, ⟨1, 2, ReplicaState.RUNNING⟩,
    ⟨2, 0, ReplicaState.RUNNING⟩, ⟨2, 1, ReplicaState.RUNNING⟩, ⟨2, 2, ReplicaState.RUNNING⟩,
    ⟨3, 0, ReplicaState.RUNNING⟩, ⟨3, 1, ReplicaState.RUNNING⟩, ⟨3, 2, ReplicaState.RUNNING⟩,
    ⟨4, 0, ReplicaState.RUNNING⟩, ⟨4, 1, ReplicaState.RUNNING⟩, ⟨4, 2, ReplicaState.RUNNING⟩]⟩

/-- Scenario start state of C8: the 4-tablet cluster with no rows yet. -/
def c8Start : Cluster := ⟨c8Meta, []⟩

/-- Scenario run of C8: rows are inserted into every tablet, tablet 2 is
replaced mid-stream by successor 9, a write still directed at the replaced
tablet is rejected (that in-flight row is lost), the writer retries against
the successor, and writing continues. -/
def c8Run : Cluster :=
  let c1 := (writeRow c8Start 1 5).1
  let c2 := (writeRow c1 2 15).1
  let c3 := (writeRow c2 3 25).1
  let c4 := (writeRow c3 4 35).1
  let c5 := (replaceCluster c4 2 (AllocResult.ok 9)).1
  let c6 := (writeRow c5 2 16).1
  let c7 := (writeRow c6 9 16).1
  (writeRow c7 3 21).1

/-! List helper lemmas. -/

theorem set_self_of_getElem {α : Type} (l : List α) (i : Nat) (a : α)
    (h : l[i]? = some a) : l.set i a = l := by
  induction l generalizing i with
  | nil => simp at h
  | cons b bs ih =>
    cases i with
    | zero => simp at h; simp [List.set, h]
    | succ j => simp at h; simp [List.set, ih j h]

theorem countP_set_eq {α : Type} (p : α → Bool) (l : List α) (i : Nat) (a b : α)
    (h : l[i]? = some a) :
    (l.set i b).countP p + (if p a then 1 else 0) =
      l.countP p + (if p b then 1 else 0) := by
  induction l generalizing i with
  | nil => simp at h
  | cons c cs ih =>
    cases i with
    | zero =>
      simp at h
      subst h
      simp [List.set, List.countP_cons]
      omega
    | succ j =>
      simp at h
      have hrec := ih j h
      simp [List.set, List.countP_cons]
      omega

theorem mem_set_of_ne {α : Type} {l : List α} {i : Nat} {a c b : α}
    (ha : a ∈ l) (hc : l[i]? = some c) (hne : a ≠ c) : a ∈ l.set i b := by
  induction l generalizing i with
  | nil => simp at ha
  | cons d ds ih =>
    cases i with
    | zero =>
      simp at hc
      subst hc
      rcases List.mem_cons.mp ha with h | h
      · exact absurd h hne
      · exact List.mem_cons_of_mem _ (by simpa [List.set] using h)
    | succ j =>
      simp at hc
      rcases List.mem_cons.mp ha with h | h
      · exact h ▸ List.mem_cons_self _ _
      · exact List.mem_cons_of_mem _ (ih h hc)

theorem find?_append_left {α : Type} {p : α → Bool} {l m : List α} {a : α}
    (h : l.find? p = some a) : (l ++ m).find? p = some a := by
  induction l with
  | nil => simp [List.find?] at h
  | cons b bs ih =>
    by_cases hb : p b
    · simp [List.find?, hb] at h ⊢; exact h
    · simp only [List.cons_append, List.find?, Bool.not_eq_true] at h ⊢
      rw [Bool.not_eq_true] at hb
      rw [hb] at h ⊢
      exact ih h

/-! Characterizations of `get`, `validate` and `swapCas`. -/

theorem get_eq_some {s : MetaStore} {tid : Nat} {t : Tablet}
    (h : get s tid = some t) : t.id = tid ∧ t ∈ s.tablets := by
  refine ⟨?_, List.mem_of_find?_eq_some h⟩
  have := List.find?_some h
  simpa using this

theorem validate_running {s : MetaStore} {tid : Nat} {t : Tablet}
    (h : get s tid = some t) (hr : t.state = TabletState.RUNNING) :
    validate s tid = Except.ok t := by
  simp [validate, h, hr]

theorem validate_none {s : MetaStore} {tid : Nat}
    (h : get s tid = none) : validate s tid = Except.error ReplaceResult.notFound := by
  simp [validate, h]

theorem validate_replaced {s : MetaStore} {tid : Nat} {t : Tablet}
    (h : get s tid = some t) (hr : t.state = TabletState.REPLACED) :
    validate s tid = Except.error ReplaceResult.alreadyReplaced := by
  simp [validate, h, hr]

theorem validate_creating {s : MetaStore} {tid : Nat} {t : Tablet}
    (h : get s tid = some t) (hr : t.state = TabletState.CREATING) :
    validate s tid = Except.error ReplaceResult.invalidState := by
  simp [validate, h, hr]

theorem validate_ok_inv {s : MetaStore} {tid : Nat} {t : Tablet}
    (h : validate s tid = Except.ok t) :
    get s tid = some t ∧ t.state = TabletState.RUNNING := by
  unfold validate at h
  cases hg : get s tid with
  | none => rw [hg] at h; simp at h
  | some u =>
    rw [hg] at h
    by_cases h1 : u.state = TabletState.REPLACED
    · simp [h1] at h
    · by_cases h2 : u.state = TabletState.RUNNING
      · simp [h1, h2] at h
        subst h
        exact ⟨rfl, h2⟩
      · simp [h1, h2] at h

theorem swapCas_ok {s : MetaStore} {tid : Nat} {t : Tablet}
    (h : get s tid = some t) (hr : t.state = TabletState.RUNNING)
    (captured : Tablet) (fresh : Nat) :
    swapCas s tid captured fresh = Except.ok (swapStore s tid captured fresh) := by
  simp [swapCas, h, hr, swapStore]

theorem swapCas_ok_inv {s : MetaStore} {tid : Nat} {captured : Tablet} {fresh : Nat}
    {s2 : MetaStore} (h : swapCas s tid captured fresh = Except.ok s2) :
    ∃ t, get s tid = some t ∧ t.state = TabletState.RUNNING ∧
      s2 = swapStore s tid captured fresh := by
  unfold swapCas at h
  cases hg : get s tid with
  | none => rw [hg] at h; simp at h
  | some u =>
    rw [hg] at h
    by_cases h1 : u.state = TabletState.RUNNING
    · simp [h1] at h
      exact ⟨u, rfl, h1, by rw [← h]; rfl⟩
    · simp [h1] at h

theorem markIf_id (tid : Nat) (u : Tablet) : (markIf tid u).id = u.id := by
  unfold markIf; split <;> rfl

theorem find?_id_map_markIf (tid tid' : Nat) (l : List Tablet) :
    (l.map (markIf tid)).find? (fun t => t.id == tid') =
      Option.map (markIf tid) (l.find? (fun t => t.id == tid')) := by
  induction l with
  | nil => simp
  | cons a as ih =>
    by_cases ha : a.id = tid'
    · simp [List.find?, markIf_id, ha]
    · simp only [List.map_cons, List.find?, markIf_id]
      have : (a.id == tid') = false := by simpa using ha
      rw [this]
      exact ih

theorem get_swapStore {s : MetaStore} {tid : Nat} {t : Tablet}
    (h : get s tid = some t) (captured : Tablet) (fresh : Nat) :
    get (swapStore s tid captured fresh) tid =
      some { t with state := TabletState.REPLACED } := by
  have hid : t.id = tid := (get_eq_some h).1
  unfold get swapStore
  have h1 : (s.tablets.map (markIf tid)).find? (fun u => u.id == tid) =
      some (markIf tid t) := by
    rw [find?_id_map_markIf]
    unfold get at h
    rw [h]
    rfl
  have h2 := find?_append_left (m := [successorOf captured fresh]) h1
  simp only [h2]
  unfold markIf
  rw [if_pos hid]

/-! Cover-invariant machinery. -/

theorem coverCountL_listByTable (s : MetaStore) (table k : Nat) :
    coverCountL (listByTable s table) k = s.tablets.countP (coverPred table k) := by
  unfold coverCountL listByTable liveOf
  rw [(List.perm_insertionSort _ _).countP_eq]
  rw [List.countP_filter]
  rfl

theorem map_markIf_ids (tid : Nat) (l : List Tablet) :
    (l.map (markIf tid)).map Tablet.id = l.map Tablet.id := by
  induction l with
  | nil => rfl
  | cons a as ih => simp [markIf_id, ih]

theorem map_markIf_eq_self {tid : Nat} {l : List Tablet} (h : ∀ u ∈ l, u.id ≠ tid) :
    l.map (markIf tid) = l := by
  induction l with
  | nil => rfl
  | cons a as ih =>
    have ha : a.id ≠ tid := h a (List.mem_cons_self a as)
    have has : ∀ u ∈ as, u.id ≠ tid := fun u hu => h u (List.mem_cons_of_mem a hu)
    simp [markIf, ha, ih has]

theorem countP_map_markIf (tid : Nat) (P : Tablet → Bool)
    (hP : ∀ u : Tablet, P { u with state := TabletState.REPLACED } = false)
    (l : List Tablet) (hnd : (l.map Tablet.id).Nodup)
    (t0 : Tablet) (hmem : t0 ∈ l) (hid : t0.id = tid) :
    (l.map (markIf tid)).countP P + (if P t0 then 1 else 0) = l.countP P := by
  induction l with
  | nil => simp at hmem
  | cons a as ih =>
    rw [List.map_cons] at hnd
    obtain ⟨hna, hnd'⟩ := List.nodup_cons.mp hnd
    rcases List.mem_cons.mp hmem with h | h
    · subst h
      have hmark : markIf tid t0 = { t0 with state := TabletState.REPLACED } := by
        unfold markIf; rw [if_pos hid]
      have has : ∀ u ∈ as, u.id ≠ tid := by
        intro u hu hc
        apply hna
        have hm : u.id ∈ as.map Tablet.id := List.mem_map_of_mem Tablet.id hu
        rwa [hc, ← hid] at hm
      rw [List.map_cons, hmark, map_markIf_eq_self has]
      rw [List.countP_cons, List.countP_cons, hP t0]
      simp
    · have hane : a.id ≠ tid := by
        intro hc
        apply hna
        have hm : t0.id ∈ as.map Tablet.id := List.mem_map_of_mem Tablet.id h
        rwa [hid, ← hc] at hm
      have hmark : markIf tid a = a := by unfold markIf; rw [if_neg hane]
      have hrec := ih hnd' h
      rw [List.map_cons, hmark, List.countP_cons, List.countP_cons]
      omega

theorem swapStore_cover {s : MetaStore} {tid : Nat} {t0 : Tablet}
    (hids : idsNodup s) (hget : get s tid = some t0)
    (hrun : t0.state = TabletState.RUNNING) {captured : Tablet} {fresh : Nat}
    (htab : captured.tableId = t0.tableId) (hlo : captured.lo = t0.lo)
    (hhi : captured.hi = t0.hi) (table K : Nat)
    (hcov : goodCover K (listByTable s table)) :
    goodCover K (listByTable (swapStore s tid captured fresh) table) := by
  intro k hk
  have h1 := hcov k hk
  rw [coverCountL_listByTable] at h1 ⊢
  have hP : ∀ u : Tablet, coverPred table k { u with state := TabletState.REPLACED } = false := by
    intro u; simp [coverPred, isLive]
  obtain ⟨hid, hmem⟩ := get_eq_some hget
  have hcrux := countP_map_markIf tid (coverPred table k) hP s.tablets hids t0 hmem hid
  show (s.tablets.map (markIf tid) ++ [successorOf captured fresh]).countP (coverPred table k) = 1
  rw [List.countP_append]
  have hsucc : coverPred table k (successorOf captured fresh) = coverPred table k t0 := by
    simp only [coverPred, successorOf, containsKey, htab, hlo, hhi, hrun, isLive]
  have h2 : List.countP (coverPred table k) [successorOf captured fresh] =
      if coverPred table k t0 then 1 else 0 := by
    simp [List.countP_cons, hsucc]
  omega

theorem swapStore_ids (s : MetaStore) (tid : Nat) (captured : Tablet) (fresh : Nat) :
    (swapStore s tid captured fresh).tablets.map Tablet.id =
      s.tablets.map Tablet.id ++ [fresh] := by
  show (s.tablets.map (markIf tid) ++ [successorOf captured fresh]).map Tablet.id = _
  rw [List.map_append, map_markIf_ids]
  rfl

theorem succCount_swapStore {s : MetaStore} {tid : Nat} (h0 : succCount s tid = 0)
    {captured : Tablet} (hcid : captured.id = tid) (fresh : Nat) :
    succCount (swapStore s tid captured fresh) tid = 1 := by
  unfold succCount at h0 ⊢
  show (s.tablets.map (markIf tid) ++ [successorOf captured fresh]).countP _ = 1
  rw [List.countP_append, List.countP_map]
  have hz : s.tablets.countP ((fun u =>
      decide (u.lineage = some tid ∧ u.state = TabletState.RUNNING)) ∘ markIf tid) = 0 := by
    rw [List.countP_eq_zero]
    intro u hu
    have hnu := List.countP_eq_zero.mp h0 u hu
    by_cases hc : u.id = tid
    · simp [markIf, hc]
    · simpa [markIf, hc] using hnu
  rw [hz]
  simp [List.countP_cons, successorOf, hcid]

theorem noCreating_swapStore {s : MetaStore} {tid : Nat}
    (h : ∀ u ∈ s.tablets, u.state ≠ TabletState.CREATING)
    (captured : Tablet) (fresh : Nat) :
    ∀ u ∈ (swapStore s tid captured fresh).tablets, u.state ≠ TabletState.CREATING := by
  intro u hu
  rcases List.mem_append.mp hu with hu | hu
  · obtain ⟨v, hv, hveq⟩ := List.mem_map.mp hu
    subst hveq
    unfold markIf
    split
    · simp
    · exact h v hv
  · have : u = successorOf captured fresh := by simpa using hu
    subst this
    simp [successorOf]

/-! Characterizations of `replaceTablet`. -/

theorem replaceTablet_notFound {s : MetaStore} {tid : Nat}
    (h : get s tid = none) (alloc : AllocResult) :
    replaceTablet s tid alloc = (s, ReplaceResult.notFound) := by
  simp [replaceTablet, validate_none h]

theorem replaceTablet_alreadyReplaced {s : MetaStore} {tid : Nat} {t : Tablet}
    (h : get s tid = some t) (hst : t.state = TabletState.REPLACED) (alloc : AllocResult) :
    replaceTablet s tid alloc = (s, ReplaceResult.alreadyReplaced) := by
  simp [replaceTablet, validate_replaced h hst]

theorem replaceTablet_invalidState {s : MetaStore} {tid : Nat} {t : Tablet}
    (h : get s tid = some t) (hst : t.state = TabletState.CREATING) (alloc : AllocResult) :
    replaceTablet s tid alloc = (s, ReplaceResult.invalidState) := by
  simp [replaceTablet, validate_creating h hst]

theorem replaceTablet_allocTimeout {s : MetaStore} {tid : Nat} {t : Tablet}
    (h : get s tid = some t) (hst : t.state = TabletState.RUNNING) :
    replaceTablet s tid AllocResult.timeout = (s, ReplaceResult.failed) := by
  simp [replaceTablet, validate_running h hst]

theorem replaceTablet_allocPlacement {s : MetaStore} {tid : Nat} {t : Tablet}
    (h : get s tid = some t) (hst : t.state = TabletState.RUNNING) :
    replaceTablet s tid AllocResult.placementFailure = (s, ReplaceResult.failed) := by
  simp [replaceTablet, validate_running h hst]

theorem replaceTablet_done {s : MetaStore} {tid : Nat} {t : Tablet}
    (h : get s tid = some t) (hst : t.state = TabletState.RUNNING) (fresh : Nat) :
    replaceTablet s tid (AllocResult.ok fresh) =
      (swapStore s tid t fresh, ReplaceResult.done) := by
  simp [replaceTablet, validate_running h hst, swapCas_ok h hst]

/-! Further helper lemmas for the data-plane and teardown claims. -/

theorem listByTable_eq {s1 s2 : MetaStore} (h : s1.tablets = s2.tablets) (table : Nat) :
    listByTable s1 table = listByTable s2 table := by
  unfold listByTable liveOf
  rw [h]

theorem tombstoneReplica_tablets (s : MetaStore) (tid node : Nat) :
    (tombstoneReplica s tid node).1.tablets = s.tablets := by
  unfold tombstoneReplica
  cases hf : findReplica s tid node with
  | none => rfl
  | some r =>
    by_cases hr : r.state = ReplicaState.DELETED
    · simp [hr]
    · simp [hr]

theorem deleteTombstoned_tablets (s : MetaStore) (tid node : Nat) :
    (deleteTombstoned s tid node).1.tablets = s.tablets := by
  unfold deleteTombstoned
  cases hf : findReplica s tid node with
  | none => rfl
  | some r =>
    by_cases hr : r.state = ReplicaState.TOMBSTONED
    · simp [hr]
    · simp [hr]

theorem replaceTablet_fst_cases (s : MetaStore) (tid : Nat) (alloc : AllocResult) :
    (replaceTablet s tid alloc).1 = s ∨
    ∃ t fresh, get s tid = some t ∧ t.state = TabletState.RUNNING ∧
      alloc = AllocResult.ok fresh ∧
      (replaceTablet s tid alloc).1 = swapStore s tid t fresh := by
  cases hg : get s tid with
  | none => left; rw [replaceTablet_notFound hg]
  | some t =>
    cases hstate : t.state with
    | REPLACED => left; rw [replaceTablet_alreadyReplaced hg hstate]
    | CREATING => left; rw [replaceTablet_invalidState hg hstate]
    | RUNNING =>
      cases alloc with
      | timeout => left; rw [replaceTablet_allocTimeout hg hstate]
      | placementFailure => left; rw [replaceTablet_allocPlacement hg hstate]
      | ok fresh =>
        right
        exact ⟨t, fresh, rfl, hstate, rfl, by rw [replaceTablet_done hg hstate]⟩

theorem get_swapStore_any {s : MetaStore} {x : Nat} {u : Tablet}
    (h : get s x = some u) (tid : Nat) (captured : Tablet) (fresh : Nat) :
    get (swapStore s tid captured fresh) x = some (markIf tid u) := by
  unfold get at h ⊢
  have h1 : (s.tablets.map (markIf tid)).find? (fun t => t.id == x) =
      some (markIf tid u) := by
    rw [find?_id_map_markIf, h]
    rfl
  exact find?_append_left h1

theorem containsKey_markIf (tid : Nat) (u : Tablet) (k : Nat) :
    containsKey (markIf tid u) k = containsKey u k := by
  unfold markIf containsKey
  split <;> rfl

theorem replaceCluster_rows (c : Cluster) (tid : Nat) (alloc : AllocResult) :
    (replaceCluster c tid alloc).1.rows = c.rows := rfl

theorem replaceCluster_meta (c : Cluster) (tid : Nat) (alloc : AllocResult) :
    (replaceCluster c tid alloc).1.meta = (replaceTablet c.meta tid alloc).1 := rfl

/-! Helper lemmas about the embedded test-harness selection loop. -/

theorem replaceLoop_ok_inv (tablets replaced : List String) :
    ∀ (ds : List Nat) (i : String),
      replaceLoop tablets replaced ds = some (Except.ok i) →
        i ∈ tablets ∧ i ∉ replaced := by
  intro ds
  induction ds with
  | nil => intro i h; simp [replaceLoop] at h
  | cons d ds ih =>
    intro i h
    unfold replaceLoop at h
    cases tablets with
    | nil => simp [randomTabletId] at h
    | cons t ts =>
      simp only [randomTabletId] at h
      have hlen : d % (t :: ts).length < (t :: ts).length :=
        Nat.mod_lt _ (by simp)
      have hgetd : (t :: ts).getD (d % (t :: ts).length) t = (t :: ts).get ⟨_, hlen⟩ := by
        rw [List.getD_eq_getElem?_getD, List.getElem?_eq_getElem hlen]
        rfl
      rw [hgetd] at h
      by_cases hmem : (t :: ts).get ⟨_, hlen⟩ ∈ replaced
      · rw [if_pos hmem] at h
        exact ih i h
      · rw [if_neg hmem] at h
        simp only [Option.some.injEq, Except.ok.injEq] at h
        subst h
        exact ⟨List.get_mem _ _ _, hmem⟩

theorem replaceLoop_hit (t : String) (ts : List String) (replaced : List String)
    (j : Nat) (hj : j < (t :: ts).length) (hnr : (t :: ts).get ⟨j, hj⟩ ∉ replaced) :
    replaceLoop (t :: ts) replaced [j] = some (Except.ok ((t :: ts).get ⟨j, hj⟩)) := by
  unfold replaceLoop
  simp only [randomTabletId]
  have hmod : j % (t :: ts).length = j := Nat.mod_eq_of_lt hj
  rw [List.getD_eq_getElem?_getD, hmod, List.getElem?_eq_getElem hj]
  simp only [Option.getD_some]
  rw [if_neg (by simpa using hnr)]
  simp

/-! Concurrency invariant machinery. -/

theorem inv_ops_forall_set {P : Op → Prop} {ops : List Op} {i : Nat} {newOp : Op}
    (hall : ∀ o ∈ ops, P o) (hnew : P newOp) :
    ∀ o ∈ ops.set i newOp, P o := by
  intro o ho
  rcases List.mem_or_eq_of_mem_set ho with h | h
  · exact hall o h
  · exact h ▸ hnew

theorem done_mem_set {ops : List Op} {i : Nat} {op newOp : Op} (hop : ops[i]? = some op)
    (hopph : ¬op.phase = OpPhase.terminal ReplaceResult.done) {n : Nat}
    (h : ∃ o ∈ ops, o.phase = OpPhase.terminal ReplaceResult.done ∧ o.freshId = n) :
    ∃ o ∈ ops.set i newOp,
      o.phase = OpPhase.terminal ReplaceResult.done ∧ o.freshId = n := by
  obtain ⟨o, ho, hdone, hfid⟩ := h
  have hne : o ≠ op := fun he => hopph (he ▸ hdone)
  exact ⟨o, mem_set_of_ne ho hop hne, hdone, hfid⟩

theorem map_freshId_set {ops : List Op} {i : Nat} {op : Op} (ph : OpPhase)
    (hop : ops[i]? = some op) :
    (ops.set i { op with phase := ph }).map Op.freshId = ops.map Op.freshId := by
  rw [List.map_set]
  exact set_self_of_getElem _ _ _ (by rw [List.getElem?_map, hop]; rfl)

theorem doneCount_set_eq {ops : List Op} {i : Nat} {op newOp : Op}
    (hop : ops[i]? = some op)
    (h1 : ¬op.phase = OpPhase.terminal ReplaceResult.done)
    (h2 : ¬newOp.phase = OpPhase.terminal ReplaceResult.done) :
    doneCount (ops.set i newOp) = doneCount ops := by
  have h := countP_set_eq
    (fun o => decide (o.phase = OpPhase.terminal ReplaceResult.done)) ops i op newOp hop
  rw [if_neg (by simpa using h1), if_neg (by simpa using h2)] at h
  unfold doneCount
  omega

theorem doneCount_set_done {ops : List Op} {i : Nat} {op newOp : Op}
    (hop : ops[i]? = some op)
    (h1 : ¬op.phase = OpPhase.terminal ReplaceResult.done)
    (h2 : newOp.phase = OpPhase.terminal ReplaceResult.done) :
    doneCount (ops.set i newOp) = doneCount ops + 1 := by
  have h := countP_set_eq
    (fun o => decide (o.phase = OpPhase.terminal ReplaceResult.done)) ops i op newOp hop
  rw [if_neg (by simpa using h1), if_pos (by simpa using h2)] at h
  unfold doneCount
  omega

theorem inv_step {tid : Nat} {initIds : List Nat} {sys sys' : Sys}
    (hstep : Step sys sys') (hinv : Inv tid initIds sys) : Inv tid initIds sys' := by
  obtain ⟨htg, hnd, hnew, hcap, hids, hnc, hmain⟩ := hinv
  cases hstep with
  | validateOk i op t hop hph hv =>
    have hmem : op ∈ sys.ops := List.getElem?_mem hop
    have htgt : op.targetId = tid := htg op hmem
    obtain ⟨hget, hrun⟩ := validate_ok_inv hv
    rw [htgt] at hget
    refine ⟨?_, ?_, ?_, ?_, ?_, hnc, ?_⟩
    · exact inv_ops_forall_set htg (htg op hmem)
    · rw [map_freshId_set _ hop]; exact hnd
    · exact inv_ops_forall_set hnew (hnew op hmem)
    · refine inv_ops_forall_set hcap ?_
      intro t' ht'
      simp only [OpPhase.allocating.injEq] at ht'
      subst ht'
      rw [← htgt]
      exact (get_eq_some (htgt ▸ hget)).1
    · intro n hn
      rcases hids n hn with h | h
      · exact Or.inl h
      · exact Or.inr (done_mem_set hop (by rw [hph]; simp) h)
    · rcases hmain with ⟨⟨t0, hg0, hs0⟩, hd0, hsc0, hterm⟩ | ⟨⟨t0, hg0, hs0⟩, _, _, _⟩
      · left
        refine ⟨⟨t0, hg0, hs0⟩, ?_, hsc0, ?_⟩
        · rw [doneCount_set_eq hop (by rw [hph]; simp) (by simp)]; exact hd0
        · refine inv_ops_forall_set hterm ?_
          intro r hr
          simp at hr
      · exfalso
        rw [hg0] at hget
        injection hget with he
        rw [he] at hs0
        rw [hrun] at hs0
        exact TabletState.noConfusion hs0
  | validateErr i op e hop hph hv =>
    have hmem : op ∈ sys.ops := List.getElem?_mem hop
    have htgt : op.targetId = tid := htg op hmem
    rw [htgt] at hv
    rcases hmain with ⟨⟨t0, hg0, hs0⟩, hd0, hsc0, hterm⟩ | ⟨⟨t0, hg0, hs0⟩, hd0, hsc0, hterm⟩
    · exfalso
      rw [validate_running hg0 hs0] at hv
      exact Except.noConfusion hv
    · have he : e = ReplaceResult.alreadyReplaced := by
        rw [validate_replaced hg0 hs0] at hv
        injection hv with h
        exact h.symm
      refine ⟨?_, ?_, ?_, ?_, ?_, hnc, ?_⟩
      · exact inv_ops_forall_set htg (htg op hmem)
      · rw [map_freshId_set _ hop]; exact hnd
      · exact inv_ops_forall_set hnew (hnew op hmem)
      · refine inv_ops_forall_set hcap ?_
        intro t' ht'
        exact absurd ht' (by simp)
      · intro n hn
        rcases hids n hn with h | h
        · exact Or.inl h
        · exact Or.inr (done_mem_set hop (by rw [hph]; simp) h)
      · right
        refine ⟨⟨t0, hg0, hs0⟩, ?_, hsc0, ?_⟩
        · rw [doneCount_set_eq hop (by rw [hph]; simp) (by simp [he])]; exact hd0
        · refine inv_ops_forall_set hterm ?_
          intro r hr
          simp only [OpPhase.terminal.injEq] at hr
          rw [← hr, he]
          exact Or.inr (Or.inl rfl)
  | allocFail i op t hop hph =>
    have hmem : op ∈ sys.ops := List.getElem?_mem hop
    refine ⟨?_, ?_, ?_, ?_, ?_, hnc, ?_⟩
    · exact inv_ops_forall_set htg (htg op hmem)
    · rw [map_freshId_set _ hop]; exact hnd
    · exact inv_ops_forall_set hnew (hnew op hmem)
    · refine inv_ops_forall_set hcap ?_
      intro t' ht'
      exact absurd ht' (by simp)
    · intro n hn
      rcases hids n hn with h | h
      · exact Or.inl h
      · exact Or.inr (done_mem_set hop (by rw [hph]; simp) h)
    · rcases hmain with ⟨hex, hd0, hsc0, hterm⟩ | ⟨hex, hd0, hsc0, hterm⟩
      · left
        refine ⟨hex, ?_, hsc0, ?_⟩
        · rw [doneCount_set_eq hop (by rw [hph]; simp) (by simp)]; exact hd0
        · refine inv_ops_forall_set hterm ?_
          intro r hr
          simp only [OpPhase.terminal.injEq] at hr
          exact hr.symm
      · right
        refine ⟨hex, ?_, hsc0, ?_⟩
        · rw [doneCount_set_eq hop (by rw [hph]; simp) (by simp)]; exact hd0
        · refine inv_ops_forall_set hterm ?_
          intro r hr
          simp only [OpPhase.terminal.injEq] at hr
          exact Or.inr (Or.inr hr.symm)
  | casOk i op t s2 hop hph hc =>
    have hmem : op ∈ sys.ops := List.getElem?_mem hop
    have hlt : i < sys.ops.length := (List.getElem?_eq_some.mp hop).1
    have htgt : op.targetId = tid := htg op hmem
    rw [htgt] at hc
    obtain ⟨tc, hgetc, hrunc, hs2⟩ := swapCas_ok_inv hc
    have hcid : t.id = tid := hcap op hmem t hph
    rcases hmain with ⟨⟨t0, hg0, hs0⟩, hd0, hsc0, hterm⟩ | ⟨⟨t0, hg0, hs0⟩, hd0, hsc0, hterm⟩
    · refine ⟨?_, ?_, ?_, ?_, ?_, ?_, ?_⟩
      · exact inv_ops_forall_set htg (htg op hmem)
      · rw [map_freshId_set _ hop]; exact hnd
      · exact inv_ops_forall_set hnew (hnew op hmem)
      · refine inv_ops_forall_set hcap ?_
        intro t' ht'
        exact absurd ht' (by simp)
      · intro n hn
        rw [hs2, swapStore_ids] at hn
        rcases List.mem_append.mp hn with hn | hn
        · rcases hids n hn with h | h
          · exact Or.inl h
          · exact Or.inr (done_mem_set hop (by rw [hph]; simp) h)
        · have hfn : n = op.freshId := by simpa using hn
          refine Or.inr ⟨{ op with phase := OpPhase.terminal ReplaceResult.done }, ?_, rfl, hfn.symm⟩
          exact List.mem_set sys.ops i hlt _
      · rw [hs2]
        exact noCreating_swapStore hnc t op.freshId
      · right
        refine ⟨⟨{ tc with state := TabletState.REPLACED }, ?_, rfl⟩, ?_, ?_, ?_⟩
        · rw [hs2]
          exact get_swapStore hgetc t op.freshId
        · rw [doneCount_set_done hop (by rw [hph]; simp) rfl, hd0]
        · rw [hs2]
          exact succCount_swapStore hsc0 hcid op.freshId
        · refine inv_ops_forall_set ?_ ?_
          · intro o ho r hr
            exact Or.inr (Or.inr (hterm o ho r hr))
          · intro r hr
            simp only [OpPhase.terminal.injEq] at hr
            exact Or.inl hr.symm
    · exfalso
      rw [hg0] at hgetc
      injection hgetc with he
      rw [he] at hs0
      rw [hrunc] at hs0
      exact TabletState.noConfusion hs0
  | casConflict i op t hop hph hc =>
    have hmem : op ∈ sys.ops := List.getElem?_mem hop
    have htgt : op.targetId = tid := htg op hmem
    rw [htgt] at hc
    rcases hmain with ⟨⟨t0, hg0, hs0⟩, hd0, hsc0, hterm⟩ | ⟨⟨t0, hg0, hs0⟩, hd0, hsc0, hterm⟩
    · exfalso
      rw [swapCas_ok hg0 hs0 t op.freshId] at hc
      exact Except.noConfusion hc
    · refine ⟨?_, ?_, ?_, ?_, ?_, hnc, ?_⟩
      · exact inv_ops_forall_set htg (htg op hmem)
      · rw [map_freshId_set _ hop]; exact hnd
      · exact inv_ops_forall_set hnew (hnew op hmem)
      · refine inv_ops_forall_set hcap ?_
        intro t' ht'
        exact absurd ht' (by simp)
      · intro n hn
        rcases hids n hn with h | h
        · exact Or.inl h
        · exact Or.inr (done_mem_set hop (by rw [hph]; simp) h)
      · right
        refine ⟨⟨t0, hg0, hs0⟩, ?_, hsc0, ?_⟩
        · rw [doneCount_set_eq hop (by rw [hph]; simp) (by simp)]; exact hd0
        · refine inv_ops_forall_set hterm ?_
          intro r hr
          simp only [OpPhase.terminal.injEq] at hr
          exact Or.inr (Or.inl hr.symm)

theorem inv_init {s0 : MetaStore} {tid : Nat} {fresh : List Nat} (h : InitOk s0 tid fresh) :
    Inv tid (s0.tablets.map Tablet.id) (initSys s0 tid fresh) := by
  obtain ⟨⟨t0, hg0, hs0⟩, hnd, hnewi, hnc, hnl⟩ := h
  refine ⟨?_, ?_, ?_, ?_, ?_, hnc, ?_⟩
  · intro op hop
    simp only [initSys] at hop
    obtain ⟨f, hf, he⟩ := List.mem_map.mp hop
    rw [← he]
  · show ((fresh.map _).map Op.freshId).Nodup
    rw [List.map_map]
    have he : (Op.freshId ∘ fun f =>
        ({ targetId := tid, freshId := f, phase := OpPhase.validating } : Op)) = id := rfl
    rw [he, List.map_id]
    exact hnd
  · intro op hop
    simp only [initSys] at hop
    obtain ⟨f, hf, he⟩ := List.mem_map.mp hop
    rw [← he]
    exact hnewi f hf
  · intro op hop t ht
    simp only [initSys] at hop
    obtain ⟨f, hf, he⟩ := List.mem_map.mp hop
    rw [← he] at ht
    simp at ht
  · intro n hn
    exact Or.inl hn
  · left
    refine ⟨⟨t0, hg0, hs0⟩, ?_, ?_, ?_⟩
    · unfold doneCount
      rw [List.countP_eq_zero]
      intro op hop
      simp only [initSys] at hop
      obtain ⟨f, hf, he⟩ := List.mem_map.mp hop
      rw [← he]
      simp
    · unfold succCount
      rw [List.countP_eq_zero]
      intro u hu
      simpa using hnl u hu
    · intro op hop r hr
      simp only [initSys] at hop
      obtain ⟨f, hf, he⟩ := List.mem_map.mp hop
      rw [← he] at hr
      simp at hr

theorem inv_reachable {s0 : MetaStore} {tid : Nat} {fresh : List Nat} {sys : Sys}
    (hinit : InitOk s0 tid fresh) (hr : Reachable (initSys s0 tid fresh) sys) :
    Inv tid (s0.tablets.map Tablet.id) sys := by
  induction hr with
  | refl => exact inv_init hinit
  | tail hsteps hstep ih => exact inv_step hstep ih

theorem step_ops_length {sys sys' : Sys} (h : Step sys sys') :
    sys'.ops.length = sys.ops.length := by
  cases h <;> simp

theorem reachable_ops_length {a b : Sys} (h : Reachable a b) :
    b.ops.length = a.ops.length := by
  induction h with
  | refl => rfl
  | tail h1 h2 ih => rw [step_ops_length h2, ih]

/-! Claim theorems. -/

/-- Claim C1: for every table, the set of its tablets whose state is RUNNING
or CREATING, as observable via `ListByTable`, forms a non-overlapping,
gap-free cover of the table's key space, and every operation of the
replacement subsystem — a full replace-tablet operation with any allocation
outcome, `TombstoneReplica` and `DeleteTombstoned` — preserves this
invariant. -/
theorem cover_invariant_preserved (s : MetaStore) (tid : Nat) (alloc : AllocResult)
    (table K : Nat) (hids : idsNodup s) (hcov : goodCover K (listByTable s table)) :
    goodCover K (listByTable (replaceTablet s tid alloc).1 table) ∧
    (∀ node, goodCover K (listByTable (tombstoneReplica s tid node).1 table)) ∧
    (∀ node, goodCover K (listByTable (deleteTombstoned s tid node).1 table)) := by
  refine ⟨?_, ?_, ?_⟩
  · cases hg : get s tid with
    | none => rw [replaceTablet_notFound hg]; exact hcov
    | some t =>
      cases hstate : t.state with
      | REPLACED => rw [replaceTablet_alreadyReplaced hg hstate]; exact hcov
      | CREATING => rw [replaceTablet_invalidState hg hstate]; exact hcov
      | RUNNING =>
        cases alloc with
        | timeout => rw [replaceTablet_allocTimeout hg hstate]; exact hcov
        | placementFailure => rw [replaceTablet_allocPlacement hg hstate]; exact hcov
        | ok fresh =>
          rw [replaceTablet_done hg hstate]
          exact swapStore_cover hids hg hstate rfl rfl rfl table K hcov
  · intro node
    rw [listByTable_eq (tombstoneReplica_tablets s tid node) table]
    exact hcov
  · intro node
    rw [listByTable_eq (deleteTombstoned_tablets s tid node) table]
    exact hcov

/-- Witness for C1 at a concrete covering store. -/
theorem cover_invariant_preserved_witness :
    goodCover 4 (listByTable (replaceTablet exS 1 (AllocResult.ok 7)).1 0) ∧
    (∀ node, goodCover 4 (listByTable (tombstoneReplica exS 1 node).1 0)) ∧
    (∀ node, goodCover 4 (listByTable (deleteTombstoned exS 1 node).1 0)) :=
  cover_invariant_preserved exS 1 (AllocResult.ok 7) 0 4
    (by unfold idsNodup; decide) (by unfold goodCover; decide)

/-- Claim C3: a replacement operation whose successor allocation times out or
whose placement fails terminates in FAILED, leaves the original tablet
RUNNING, and leaves `ListByTable` unchanged for every table — no partial
visible metadata change on error. -/
theorem alloc_failure_no_visible_change (s : MetaStore) (tid : Nat) (t : Tablet)
    (alloc : AllocResult) (hget : get s tid = some t)
    (hrun : t.state = TabletState.RUNNING)
    (halloc : alloc = AllocResult.timeout ∨ alloc = AllocResult.placementFailure) :
    replaceTablet s tid alloc = (s, ReplaceResult.failed) ∧
    get (replaceTablet s tid alloc).1 tid = some t ∧
    t.state = TabletState.RUNNING ∧
    (∀ table, listByTable (replaceTablet s tid alloc).1 table = listByTable s table) := by
  have heq : replaceTablet s tid alloc = (s, ReplaceResult.failed) := by
    rcases halloc with h | h
    · rw [h]; exact replaceTablet_allocTimeout hget hrun
    · rw [h]; exact replaceTablet_allocPlacement hget hrun
  refine ⟨heq, ?_, hrun, ?_⟩
  · rw [heq]; exact hget
  · intro table; rw [heq]

/-- Witness for C3 at a concrete store. -/
theorem alloc_failure_no_visible_change_witness :
    replaceTablet exS 1 AllocResult.timeout = (exS, ReplaceResult.failed) ∧
    get (replaceTablet exS 1 AllocResult.timeout).1 1 =
      some ⟨1, 0, 0, 2, TabletState.RUNNING, none⟩ ∧
    TabletState.RUNNING = TabletState.RUNNING ∧
    (∀ table, listByTable (replaceTablet exS 1 AllocResult.timeout).1 table =
      listByTable exS table) :=
  alloc_failure_no_visible_change exS 1 ⟨1, 0, 0, 2, TabletState.RUNNING, none⟩
    AllocResult.timeout rfl rfl (Or.inl rfl)

/-- Claim C4 (amended): a replace request for an absent tablet ID fails with
NotFound; one whose target exists in a state that is neither RUNNING nor
REPLACED (i.e. CREATING) fails with InvalidState; one whose target is
REPLACED fails with AlreadyReplaced; in all three cases the outcome is
reported synchronously and the store is returned unchanged. -/
theorem validation_errors (s : MetaStore) (tid : Nat) (alloc : AllocResult) :
    (get s tid = none → replaceTablet s tid alloc = (s, ReplaceResult.notFound)) ∧
    (∀ t, get s tid = some t → t.state = TabletState.CREATING →
      replaceTablet s tid alloc = (s, ReplaceResult.invalidState)) ∧
    (∀ t, get s tid = some t → t.state = TabletState.REPLACED →
      replaceTablet s tid alloc = (s, ReplaceResult.alreadyReplaced)) :=
  ⟨fun h => replaceTablet_notFound h alloc,
   fun _ h hs => replaceTablet_invalidState h hs alloc,
   fun _ h hs => replaceTablet_alreadyReplaced h hs alloc⟩

/-- Witness for C4 (amended) at a concrete store. -/
theorem validation_errors_witness :
    replaceTablet cexS 3 (AllocResult.ok 9) = (cexS, ReplaceResult.alreadyReplaced) :=
  (validation_errors cexS 3 (AllocResult.ok 9)).2.2
    ⟨3, 0, 0, 4, TabletState.REPLACED, none⟩ rfl rfl

/-- Counterexample to C4 as stated: tablet 3 of `cexS` exists and is not in
state RUNNING, yet the replace request fails with AlreadyReplaced, not with
the InvalidState the claim demands for every existing non-RUNNING target. -/
theorem validation_claim_counterexample :
    get cexS 3 = some ⟨3, 0, 0, 4, TabletState.REPLACED, none⟩ ∧
    TabletState.REPLACED ≠ TabletState.RUNNING ∧
    (replaceTablet cexS 3 (AllocResult.ok 9)).2 = ReplaceResult.alreadyReplaced ∧
    ReplaceResult.alreadyReplaced ≠ ReplaceResult.invalidState := by
  decide

/-- Claim C5: of two successive replace requests naming the same tablet ID,
where the first completes before the second is validated, the first succeeds
(DONE) and the second resolves to AlreadyReplaced without applying a second
replacement (the store is left exactly as the first one left it). -/
theorem second_replace_already_replaced (s : MetaStore) (tid fresh : Nat)
    (t : Tablet) (alloc2 : AllocResult)
    (hget : get s tid = some t) (hrun : t.state = TabletState.RUNNING) :
    (replaceTablet s tid (AllocResult.ok fresh)).2 = ReplaceResult.done ∧
    replaceTablet (replaceTablet s tid (AllocResult.ok fresh)).1 tid alloc2 =
      ((replaceTablet s tid (AllocResult.ok fresh)).1, ReplaceResult.alreadyReplaced) := by
  rw [replaceTablet_done hget hrun]
  refine ⟨rfl, ?_⟩
  exact replaceTablet_alreadyReplaced (get_swapStore hget t fresh) rfl alloc2

/-- Witness for C5 at a concrete store. -/
theorem second_replace_already_replaced_witness :
    (replaceTablet exS 1 (AllocResult.ok 7)).2 = ReplaceResult.done ∧
    replaceTablet (replaceTablet exS 1 (AllocResult.ok 7)).1 1 (AllocResult.ok 8) =
      ((replaceTablet exS 1 (AllocResult.ok 7)).1, ReplaceResult.alreadyReplaced) :=
  second_replace_already_replaced exS 1 7 ⟨1, 0, 0, 2, TabletState.RUNNING, none⟩
    (AllocResult.ok 8) rfl rfl

/-- Claim C9: teardown is idempotent on an already-deleted replica: repeated
`TombstoneReplica` and `DeleteTombstoned` calls on a replica that is absent
or DELETED return OK respectively NotFound, and leave the metadata state
exactly as it was. -/
theorem teardown_idempotent (s : MetaStore) (tid node : Nat)
    (h : ∀ r, findReplica s tid node = some r → r.state = ReplicaState.DELETED) :
    tombstoneReplica s tid node = (s, TeardownResult.ok) ∧
    deleteTombstoned s tid node = (s, TeardownResult.notFound) := by
  cases hf : findReplica s tid node with
  | none => exact ⟨by simp [tombstoneReplica, hf], by simp [deleteTombstoned, hf]⟩
  | some r =>
    have hr := h r hf
    exact ⟨by simp [tombstoneReplica, hf, hr], by simp [deleteTombstoned, hf, hr]⟩

/-- Witness for C9 at a concrete store whose replica (1, 0) is DELETED. -/
theorem teardown_idempotent_witness :
    tombstoneReplica exS 1 0 = (exS, TeardownResult.ok) ∧
    deleteTombstoned exS 1 0 = (exS, TeardownResult.notFound) :=
  teardown_idempotent exS 1 0 (by decide)

/-- Claim C2: for concurrent duplicate replacement requests naming the same
tablet ID, at every reachable state at most one RUNNING successor of the
target exists (the metadata CompareAndSwap lets at most one concurrent
attempt succeed), and in every terminal execution in which no request hit an
allocation failure, exactly one request reaches DONE and every other
resolves to AlreadyReplaced. -/
theorem exactly_once_swap (s0 : MetaStore) (tid : Nat) (fresh : List Nat) (sys : Sys)
    (hinit : InitOk s0 tid fresh) (hne : fresh ≠ [])
    (hr : Reachable (initSys s0 tid fresh) sys) :
    succCount sys.store tid ≤ 1 ∧
    ((∀ op ∈ sys.ops, isTerminal op.phase = true) →
     (∀ op ∈ sys.ops, op.phase ≠ OpPhase.terminal ReplaceResult.failed) →
     doneCount sys.ops = 1 ∧
       ∀ op ∈ sys.ops, op.phase = OpPhase.terminal ReplaceResult.done ∨
         op.phase = OpPhase.terminal ReplaceResult.alreadyReplaced) := by
  have hinv := inv_reachable hinit hr
  constructor
  · rcases hinv.main with ⟨_, _, hsc, _⟩ | ⟨_, _, hsc, _⟩ <;> omega
  · intro hterm hnf
    have hlen : sys.ops.length = fresh.length := by
      rw [reachable_ops_length hr]
      simp [initSys]
    rcases hinv.main with ⟨_, hd0, _, honly⟩ | ⟨_, hd1, _, hgood⟩
    · exfalso
      cases hops : sys.ops with
      | nil =>
        rw [hops] at hlen
        exact hne (List.length_eq_zero.mp hlen.symm)
      | cons o os =>
        have hmem : o ∈ sys.ops := by rw [hops]; exact List.mem_cons_self _ _
        have hto := hterm o hmem
        cases hpo : o.phase with
        | terminal r => exact hnf o hmem (by rw [hpo, honly o hmem r hpo])
        | validating => rw [hpo] at hto; simp [isTerminal] at hto
        | allocating t => rw [hpo] at hto; simp [isTerminal] at hto
    · refine ⟨hd1, ?_⟩
      intro op hop
      have hto := hterm op hop
      cases hpo : op.phase with
      | terminal r =>
        rcases hgood op hop r hpo with h | h | h
        · left; rw [h]
        · right; rw [h]
        · exact absurd (hpo.trans (by rw [h])) (hnf op hop)
      | validating => rw [hpo] at hto; simp [isTerminal] at hto
      | allocating t => rw [hpo] at hto; simp [isTerminal] at hto

/-- Witness for C2: a concrete interleaving of two duplicate requests on
tablet 1 of `exS`, in which request 7 wins the CAS and request 8 aborts. -/
theorem exactly_once_swap_witness :
    succCount exSysFinal.store 1 ≤ 1 ∧ doneCount exSysFinal.ops = 1 ∧
    ∀ op ∈ exSysFinal.ops,
      op.phase = OpPhase.terminal ReplaceResult.done ∨
      op.phase = OpPhase.terminal ReplaceResult.alreadyReplaced := by
  have h01 := Step.validateOk (initSys exS 1 ([7, 8])) 0
    ⟨1, 7, OpPhase.validating⟩ ⟨1, 0, 0, 2, TabletState.RUNNING, none⟩ rfl rfl rfl
  have h12 := Step.casOk
    (⟨exS, [⟨1, 7, OpPhase.allocating ⟨1, 0, 0, 2, TabletState.RUNNING, none⟩⟩,
            ⟨1, 8, OpPhase.validating⟩]⟩ : Sys) 0
    ⟨1, 7, OpPhase.allocating ⟨1, 0, 0, 2, TabletState.RUNNING, none⟩⟩
    ⟨1, 0, 0, 2, TabletState.RUNNING, none⟩ exSwapped rfl rfl rfl
  have h23 := Step.validateErr
    (⟨exSwapped, [⟨1, 7, OpPhase.terminal ReplaceResult.done⟩,
                  ⟨1, 8, OpPhase.validating⟩]⟩ : Sys) 1
    ⟨1, 8, OpPhase.validating⟩ ReplaceResult.alreadyReplaced rfl rfl rfl
  have hr : Reachable (initSys exS 1 ([7, 8])) exSysFinal :=
    Relation.ReflTransGen.tail
      (Relation.ReflTransGen.tail (Relation.ReflTransGen.tail Relation.ReflTransGen.refl h01) h12)
      h23
  have h := exactly_once_swap exS 1 ([7, 8]) exSysFinal
    ⟨⟨⟨1, 0, 0, 2, TabletState.RUNNING, none⟩, rfl, rfl⟩,
      by decide, by decide, by decide, by decide⟩
    (by decide) hr
  exact ⟨h.1, h.2 (by decide) (by decide)⟩

/-- Claim C6: at every reachable state, the successor identity of any
operation that has not completed — one still allocating, one aborted as a
duplicate, or one failed — is absent from `ListByTable` for every table (a
created-but-unswapped successor is never discoverable via metadata), and no
tablet in CREATING state is ever stored. -/
theorem unswapped_successor_invisible (s0 : MetaStore) (tid : Nat) (fresh : List Nat)
    (sys : Sys) (hinit : InitOk s0 tid fresh)
    (hr : Reachable (initSys s0 tid fresh) sys) :
    (∀ op ∈ sys.ops, op.phase ≠ OpPhase.terminal ReplaceResult.done →
      ∀ table, op.freshId ∉ (listByTable sys.store table).map Tablet.id) ∧
    (∀ u ∈ sys.store.tablets, u.state ≠ TabletState.CREATING) := by
  have hinv := inv_reachable hinit hr
  refine ⟨?_, hinv.noCreating⟩
  intro op hop hndone table hmem
  obtain ⟨u, hu, hueq⟩ := List.mem_map.mp hmem
  have hu1 : u ∈ liveOf sys.store table :=
    (List.Perm.mem_iff (List.perm_insertionSort _ _)).mp hu
  have hu2 : u ∈ sys.store.tablets := List.mem_of_mem_filter hu1
  have hstore : op.freshId ∈ sys.store.tablets.map Tablet.id :=
    List.mem_map.mpr ⟨u, hu2, hueq⟩
  rcases hinv.idsFrom _ hstore with h | ⟨o, ho, hdone, hfid⟩
  · exact hinv.freshNew op hop h
  · have heq : o = op := List.inj_on_of_nodup_map hinv.freshNodup ho hop hfid
    exact hndone (heq ▸ hdone)

/-- Witness for C6 at the admitted-but-unstarted configuration of two
requests over `exS`. -/
theorem unswapped_successor_invisible_witness :
    (∀ op ∈ (initSys exS 1 ([7, 8])).ops,
      op.phase ≠ OpPhase.terminal ReplaceResult.done →
      ∀ table, op.freshId ∉ (listByTable (initSys exS 1 ([7, 8])).store table).map Tablet.id) ∧
    (∀ u ∈ (initSys exS 1 ([7, 8])).store.tablets, u.state ≠ TabletState.CREATING) :=
  unswapped_successor_invisible exS 1 ([7, 8]) (initSys exS 1 ([7, 8]))
    ⟨⟨⟨1, 0, 0, 2, TabletState.RUNNING, none⟩, rfl, rfl⟩,
      by decide, by decide, by decide, by decide⟩
    Relation.ReflTransGen.refl

/-- Claim C7: once a replacement has swapped a tablet out, a write directed
at the replaced tablet fails with the retryable stale-partition error and
changes nothing; each write is either lost (rejected, no state change) or
applied exactly once to exactly the addressed tablet, so no row is ever
duplicated; and the attribution invariant — every stored row lies in the key
range of the tablet holding it — is preserved both by writes and by
replacement operations. -/
theorem writes_during_replacement :
    (∀ (c : Cluster) (tid fresh k : Nat) (t : Tablet),
      get c.meta tid = some t → t.state = TabletState.RUNNING →
      writeRow (replaceCluster c tid (AllocResult.ok fresh)).1 tid k =
        ((replaceCluster c tid (AllocResult.ok fresh)).1, some WriteError.stalePartition) ∧
      retryableWrite WriteError.stalePartition = true) ∧
    (∀ (c : Cluster) (tid k : Nat),
      (writeRow c tid k).1.rows = c.rows ∨
      (writeRow c tid k).1.rows = (tid, k) :: c.rows) ∧
    (∀ (c : Cluster) (tid k : Nat),
      rowsAttributed c → rowsAttributed (writeRow c tid k).1) ∧
    (∀ (c : Cluster) (tid : Nat) (alloc : AllocResult),
      rowsAttributed c → rowsAttributed (replaceCluster c tid alloc).1) := by
  refine ⟨?_, ?_, ?_, ?_⟩
  · intro c tid fresh k t hget hrun
    have hmeta : (replaceCluster c tid (AllocResult.ok fresh)).1.meta =
        swapStore c.meta tid t fresh := by
      rw [replaceCluster_meta, replaceTablet_done hget hrun]
    refine ⟨?_, rfl⟩
    unfold writeRow
    rw [hmeta, get_swapStore hget t fresh]
  · intro c tid k
    unfold writeRow
    cases hg : get c.meta tid with
    | none => left; rfl
    | some t =>
      cases hs : t.state with
      | REPLACED => left; simp [hs]
      | CREATING => left; simp [hs]
      | RUNNING =>
        by_cases hck : containsKey t k = true
        · right; simp [hs, hck]
        · left; simp [hs, hck]
  · intro c tid k hattr
    unfold writeRow
    cases hg : get c.meta tid with
    | none => exact hattr
    | some t =>
      cases hs : t.state with
      | REPLACED => simp only [hs]; exact hattr
      | CREATING => simp only [hs]; exact hattr
      | RUNNING =>
        simp only [hs]
        by_cases hck : containsKey t k = true
        · simp only [hck, if_true]
          intro p hp
          rcases List.mem_cons.mp hp with hp | hp
          · subst hp
            exact ⟨t, hg, hck⟩
          · exact hattr p hp
        · simp only [hck, if_false]
          exact hattr
  · intro c tid alloc hattr
    rcases replaceTablet_fst_cases c.meta tid alloc with hc | ⟨t, fresh, _, _, _, hc⟩
    · intro p hp
      rw [replaceCluster_rows] at hp
      obtain ⟨u, hu, hcku⟩ := hattr p hp
      exact ⟨u, by rw [replaceCluster_meta, hc]; exact hu, hcku⟩
    · intro p hp
      rw [replaceCluster_rows] at hp
      obtain ⟨u, hu, hcku⟩ := hattr p hp
      refine ⟨markIf tid u, ?_, ?_⟩
      · rw [replaceCluster_meta, hc]
        exact get_swapStore_any hu tid t fresh
      · rw [containsKey_markIf]
        exact hcku

/-- Witness for C7: after tablet 1 of `exS` is replaced by successor 7, a
write still directed at tablet 1 receives the retryable stale-partition
error. -/
theorem writes_during_replacement_witness :
    writeRow (replaceCluster (⟨exS, []⟩ : Cluster) 1 (AllocResult.ok 7)).1 1 0 =
      ((replaceCluster (⟨exS, []⟩ : Cluster) 1 (AllocResult.ok 7)).1,
        some WriteError.stalePartition) ∧
    retryableWrite WriteError.stalePartition = true :=
  writes_during_replacement.1 (⟨exS, []⟩ : Cluster) 1 7 0
    ⟨1, 0, 0, 2, TabletState.RUNNING, none⟩ rfl rfl

/-- Claim C10: the selection loop of `ReplaceRandomTablet` never issues a
replace request for a tablet ID already contained in `replaced_tablet_ids`:
any request it sends names a listed, not-yet-replaced tablet; when the
tablet server lists no tablets at all the NotFound of `RandomTabletId` is
propagated; and a draw sequence on which the loop terminates with a request
exists exactly when the server lists at least one tablet whose ID is not in
the set. -/
theorem replace_random_tablet_selection (tablets replaced : List String) :
    (∀ (ds : List Nat) (i : String),
      replaceLoop tablets replaced ds = some (Except.ok i) →
        i ∈ tablets ∧ i ∉ replaced) ∧
    (∀ (d : Nat) (ds : List Nat),
      replaceLoop [] replaced (d :: ds) = some (Except.error ())) ∧
    ((∃ i, i ∈ tablets ∧ i ∉ replaced) ↔
      (∃ (ds : List Nat) (i : String),
        replaceLoop tablets replaced ds = some (Except.ok i))) := by
  refine ⟨replaceLoop_ok_inv tablets replaced, fun d ds => rfl, ?_, ?_⟩
  · rintro ⟨i, hmem, hnr⟩
    obtain ⟨j, hj, hje⟩ := List.getElem_of_mem hmem
    cases tablets with
    | nil => simp at hmem
    | cons t ts =>
      refine ⟨[j], (t :: ts).get ⟨j, hj⟩, replaceLoop_hit t ts replaced j hj ?_⟩
      show (t :: ts)[j] ∉ replaced
      rw [hje]
      exact hnr
  · rintro ⟨ds, i, h⟩
    exact ⟨i, replaceLoop_ok_inv tablets replaced ds i h⟩

/-- Witness for C10: a concrete draw sequence reaching the unreplaced
tablet. -/
theorem replace_random_tablet_selection_witness :
    ∃ (ds : List Nat) (i : String),
      replaceLoop (["x", "y"]) (["x"]) ds = some (Except.ok i) :=
  (replace_random_tablet_selection (["x", "y"]) (["x"])).2.2.mp
    ⟨("y"), by decide, by decide⟩

theorem rowsAttributed_of_check {c : Cluster} (h : rowsAttributedB c = true) :
    rowsAttributed c := by
  intro p hp
  have hb := List.all_eq_true.mp h p hp
  cases hg : get c.meta p.1 with
  | none => rw [hg] at hb; simp at hb
  | some t =>
    rw [hg] at hb
    exact ⟨t, rfl, hb⟩

/-- Claim C8: in the 3-node, 4-tablet scenario under continuous writes with
tablet 2 replaced mid-stream, the post-operation `ListByTable` shows exactly
4 tablets forming a non-overlapping, gap-free cover of the key space, none
of which has the original tablet's ID; the in-flight row addressed to the
replaced tablet is lost while its retry against the successor lands; and the
cluster-wide consistency check (every stored row attributed to the key range
of its hosting tablet) passes. -/
theorem scenario_four_tablets :
    (listByTable c8Run.meta 0).length = 4 ∧
    goodCover 40 (listByTable c8Run.meta 0) ∧
    (∀ t ∈ listByTable c8Run.meta 0, t.id ≠ 2) ∧
    (2, 16) ∉ c8Run.rows ∧ (9, 16) ∈ c8Run.rows ∧
    rowsAttributed c8Run := by
  refine ⟨by decide, by unfold goodCover; decide, by decide, by decide, by decide, ?_⟩
  exact rowsAttributed_of_check (by decide)

end KuduReplace
